import Mathlib

/-
Verification of the resume-section extraction and experience-duration
pipeline in src/src/utils/doc_utils.py (functions parse_resume and
get_years_of_experience).

Shallow embedding conventions:
  * Page text is a list of characters (`Text`); Python slice offsets are
    code-point indices, which coincide with list indices here.
  * The configured section identifiers are used by the source as regex
    patterns via re.finditer; in every configuration they are literal
    header strings (e.g. "Education") without metacharacters, so header
    detection is embedded as literal non-overlapping leftmost substring
    search (re.DOTALL only alters `.`, which literal patterns do not use).
  * The two genuine regexes of the source (job_experience_pattern with
    re.MULTILINE, and years_pattern with re.IGNORECASE) are embedded as
    executable matchers over ASCII text, following the Python regex
    semantics (greedy repetition with backtracking, alternation order,
    word boundaries, anchors).
  * Python exceptions are an explicit error type (`PyErr`): ValueError
    (min of an empty sequence) and IndexError (list subscript out of
    range).  datetime values are (year, month) pairs; timedelta day
    counts use the proleptic Gregorian civil-day formula.  Floats are
    modelled by rationals; round(x, 2) is half-to-even at two decimals.
-/

namespace JobAgent

abbrev Text := List Char

def toL (s : String) : Text := s.toList

/-- Python `\w` on ASCII text: letters, digits, underscore. -/
def isWordChar (c : Char) : Bool := c.isAlpha || c.isDigit || c = '_'

/-- Python `\s` on ASCII text (also the default strip set of str.strip). -/
def isSpaceChar (c : Char) : Bool :=
  c = ' ' || c = '\t' || c = '\n' || c = '\r' || c = '\x0b' || c = '\x0c'

/-- Character class `[-\s/]` of years_pattern. -/
def isSepChar (c : Char) : Bool := c = '-' || c = '/' || isSpaceChar c

def isDigitChar (c : Char) : Bool := c.isDigit

/-- Python `s.strip("\n\n").strip()`: stripping the newline set and then all
whitespace equals stripping all whitespace. -/
def pyStrip (t : Text) : Text :=
  ((t.dropWhile isSpaceChar).reverse.dropWhile isSpaceChar).reverse

/-- Python slice `t[a:b]` (non-negative indices, clamped). -/
def pySlice (t : Text) (a b : Nat) : Text := (t.drop a).take (b - a)

/-- Python slice `t[a:]`. -/
def pySliceFrom (t : Text) (a : Nat) : Text := t.drop a

/-- re.finditer with a literal pattern: leftmost non-overlapping matches,
as (start, end) spans.  Fuel-based scan; `pyFindIter` supplies enough fuel. -/
def findIterAux (p : Text) : Nat → Nat → Text → List (Nat × Nat)
  | 0, _, _ => []
  | _ + 1, pos, [] => if p.isEmpty then [(pos, pos)] else []
  | fuel + 1, pos, c :: rest =>
    if p.isEmpty then (pos, pos) :: findIterAux p fuel (pos + 1) rest
    else if p.isPrefixOf (c :: rest) then
      (pos, pos + p.length) :: findIterAux p fuel (pos + p.length) ((c :: rest).drop p.length)
    else findIterAux p fuel (pos + 1) rest

def pyFindIter (p t : Text) : List (Nat × Nat) := findIterAux p (t.length + 1) 0 t

/-- Line 97-102 of doc_utils.py: for each configured section pattern, in
configuration order, collect every match span on the page. -/
def sectionMatches (sections : List Text) (page : Text) : List (Nat × Nat) :=
  (sections.map fun s => pyFindIter s page).flatten

def listMin : List Nat → Nat
  | [] => 0
  | x :: xs => xs.foldl Nat.min x

/-! years_pattern of get_years_of_experience (re.IGNORECASE):
`\b(?:Jan(?:uary)?|...|Dec(?:ember)?)[-\s/]*(?:19|20)\d{2}\b`.
The month alternatives with their greedy optional suffixes, flattened in
the order the regex engine tries them, lowercased. -/

def monthVariants : List Text :=
  [toL "january", toL "jan", toL "february", toL "feb", toL "march", toL "mar",
   toL "april", toL "apr", toL "may", toL "june", toL "jun", toL "july", toL "jul",
   toL "august", toL "aug", toL "september", toL "sept", toL "sep",
   toL "october", toL "oct", toL "november", toL "nov", toL "december", toL "dec"]

def toLowerT (t : Text) : Text := t.map Char.toLower

/-- Matches `(?:19|20)\d{2}\b` at the start of `t`. -/
def yearAt (t : Text) : Bool :=
  match t with
  | c1 :: c2 :: c3 :: c4 :: rest =>
    ((c1 = '1' && c2 = '9') || (c1 = '2' && c2 = '0')) &&
    isDigitChar c3 && isDigitChar c4 &&
    (match rest with
     | [] => true
     | d :: _ => !isWordChar d)
  | _ => false

/-- Attempts a years_pattern match at the start of suffix `t`, where `prev`
is the character before `t` (for the leading `\b`); returns the number of
characters consumed.  The `[-\s/]*` run is maximal (digits are not in the
class, so the regex engine cannot succeed with a shorter run). -/
def yearTokenAt (prev : Option Char) (t : Text) : Option Nat :=
  let boundary := match prev with
    | none => true
    | some c => !isWordChar c
  if boundary then
    monthVariants.findSome? fun v =>
      if toLowerT (t.take v.length) = v then
        let afterM := t.drop v.length
        let seps := (afterM.takeWhile isSepChar).length
        if yearAt (afterM.drop seps) then some (v.length + seps + 4) else none
      else none
  else none

/-- re.findall of years_pattern: scan left to right, emit each matched
substring, resume after the match (fuel-based; `scanYears` supplies it). -/
def scanYearsAux : Nat → Option Char → Text → List Text
  | 0, _, _ => []
  | _ + 1, _, [] => []
  | fuel + 1, prev, c :: rest =>
    match yearTokenAt prev (c :: rest) with
    | some n => (c :: rest).take n ::
        scanYearsAux fuel ((c :: rest).get? (n - 1)) ((c :: rest).drop n)
    | none => scanYearsAux fuel (some c) rest

def scanYears (t : Text) : List Text := scanYearsAux t.length none t

/-! datetime.strptime(s, "%b %Y"): the compiled format regex is
`(?P<b>jan|feb|...)\s+(?P<Y>\d\d\d\d)` with IGNORECASE, anchored at the
start, and the whole string must be consumed. -/

def monthAbbrevs : List (Text × Nat) :=
  [(toL "jan", 1), (toL "feb", 2), (toL "mar", 3), (toL "apr", 4),
   (toL "may", 5), (toL "jun", 6), (toL "jul", 7), (toL "aug", 8),
   (toL "sep", 9), (toL "oct", 10), (toL "nov", 11), (toL "dec", 12)]

def digitVal (c : Char) : Nat := c.toNat - 48

/-- datetime.strptime(s, "%b %Y") as (year, month); none when it raises
ValueError. -/
def pyStrptimeBY (s : Text) : Option (Nat × Nat) :=
  let ls := toLowerT s
  monthAbbrevs.findSome? fun am =>
    if am.1.isPrefixOf ls then
      let rest := ls.drop 3
      let ws := (rest.takeWhile isSpaceChar).length
      if ws = 0 then none
      else
        match rest.drop ws with
        | [c1, c2, c3, c4] =>
          if isDigitChar c1 && isDigitChar c2 && isDigitChar c3 && isDigitChar c4 then
            some (((digitVal c1 * 10 + digitVal c2) * 10 + digitVal c3) * 10 + digitVal c4, am.2)
          else none
        | _ => none
    else none

/-- Sequential parse of all found tokens; the list comprehension at line
187 raises on the first bad token and the except clause turns that into
None for the whole computation. -/
def parseAll : List Text → Option (List (Nat × Nat))
  | [] => some []
  | t :: ts =>
    match pyStrptimeBY t with
    | none => none
    | some d =>
      match parseAll ts with
      | none => none
      | some ds => some (d :: ds)

/-- Proleptic Gregorian day number of the first of month `m` of year `y`
(arbitrary fixed epoch; only differences are used, mirroring
timedelta.days between two first-of-month datetimes). -/
def daysFromCivilN (y m : Nat) : Nat :=
  let y2 := if m ≤ 2 then y - 1 else y
  let era := y2 / 400
  let yoe := y2 % 400
  let mp := (m + 9) % 12
  let doy := (153 * mp + 2) / 5
  let doe := yoe * 365 + yoe / 4 - yoe / 100 + doy
  era * 146097 + doe

/-- datetime ordering on first-of-month dates is lexicographic on
(year, month). -/
def dateLe (a b : Nat × Nat) : Bool := a.1 < b.1 || (a.1 = b.1 && a.2 ≤ b.2)

def listMaxDate : List (Nat × Nat) → Nat × Nat
  | [] => (0, 0)
  | x :: xs => xs.foldl (fun acc d => if dateLe acc d then d else acc) x

def listMinDate : List (Nat × Nat) → Nat × Nat
  | [] => (0, 0)
  | x :: xs => xs.foldl (fun acc d => if dateLe d acc then d else acc) x

/-- Python round to an integer: half to even.  With x = n/d in lowest
terms and d > 0, f = ⌊x⌋ = fdiv n d and the fractional part (n - f*d)/d
is compared with 1/2 by cross-multiplication, keeping the whole
computation in kernel-reducible integer arithmetic. -/
def pyRoundHalfEven (x : ℚ) : ℤ :=
  let n := x.num
  let d : ℤ := (x.den : ℤ)
  let f := n.fdiv d
  let rn := n - f * d
  if rn * 2 < d then f
  else if d < rn * 2 then f + 1
  else if f % 2 = 0 then f else f + 1

/-- Python round(x, 2): x*100 is formed on the raw fraction. -/
def pyRound2 (x : ℚ) : ℚ := mkRat (pyRoundHalfEven (mkRat (x.num * 100) x.den)) 100

/-! job_experience_pattern of parse_resume (re.MULTILINE):
`^(?!•)(.+?\b(?:Jan|Feb|Mar|Apr|May|Jun|Jul|Aug|Sep|Oct|Nov|Dec)\s+\d{4}\s*[-–]\s*(?:Jan|...|Dec)?\s*\d{0,4})$`.
Every match is anchored at a line start (`^`); `.` cannot cross a newline
but the `\s` repetitions can, and `$` holds before a newline or at the end
of the string.  parse_resume consumes only (a) whether the match list is
empty and (b) the start offset of the first match, and every match starts
at a line start, so the embedding records the list of line-start offsets
at which a match begins. -/

def monthCap3 : List Text :=
  [toL "Jan", toL "Feb", toL "Mar", toL "Apr", toL "May", toL "Jun",
   toL "Jul", toL "Aug", toL "Sep", toL "Oct", toL "Nov", toL "Dec"]

/-- Matches one of the (case-sensitive) three-letter month literals at the
start of `t`. -/
def isMonth3 (t : Text) : Bool := monthCap3.any fun m => m.isPrefixOf t

/-- Tests `$` at the head of `t` (before a newline or at the end). -/
def lineEndAt (t : Text) : Bool :=
  match t with
  | [] => true
  | c :: _ => c = '\n'

/-- Matches `\s*\d{0,4}$` starting at `t`.  Either `\s*` backtracks to stop
just before a newline inside its run (zero digits, `$` at the newline), or
it consumes its whole run and the following maximal digit run (at most 4,
since a fifth digit could not be consumed by anything) must reach `$`. -/
def tailDigitsEnd (t : Text) : Bool :=
  (t.takeWhile isSpaceChar).contains '\n' ||
  (let t1 := t.dropWhile isSpaceChar
   let dr := (t1.takeWhile isDigitChar).length
   decide (dr ≤ 4) && lineEndAt (t1.drop dr))

/-- Matches `(?:Jan|...|Dec)\s+\d{4}\s*[-–]\s*(?:Jan|...|Dec)?\s*\d{0,4}$`
starting exactly at `u` (a suffix of the page). -/
def dateFrom (u : Text) : Bool :=
  isMonth3 u &&
  (let a := u.drop 3
   let ws1 := (a.takeWhile isSpaceChar).length
   decide (1 ≤ ws1) &&
   (match a.drop ws1 with
    | c1 :: c2 :: c3 :: c4 :: afterY =>
      isDigitChar c1 && isDigitChar c2 && isDigitChar c3 && isDigitChar c4 &&
      (match afterY.dropWhile isSpaceChar with
       | dash :: afterD =>
         (dash = '-' || dash = '–') &&
         (tailDigitsEnd afterD ||
          (let f := afterD.dropWhile isSpaceChar
           isMonth3 f && tailDigitsEnd (f.drop 3)))
       | [] => false)
    | _ => false))

/-- Can a job_experience_pattern match start at the head of `rest` (a
suffix of the page beginning at a line start)?  `(?!•)` forbids a leading
bullet; `.+?` supplies a non-empty prefix of the current line (it cannot
cross the newline) whose last character must fail `\w` so that `\b` holds
before the month literal. -/
def jobStartOK (rest : Text) : Bool :=
  match rest with
  | [] => false
  | c :: _ =>
    decide (c ≠ '•') &&
    (let lineLen := (rest.takeWhile fun ch => ch ≠ '\n').length
     (List.range lineLen).any fun j =>
       match rest.get? j with
       | some pc => !isWordChar pc && dateFrom (rest.drop (j + 1))
       | none => false)

/-- Offsets at which `^` matches: 0 and every position after a newline. -/
def lineStartsFrom : Text → Nat → List Nat
  | [], _ => []
  | c :: rest, pos =>
    if c = '\n' then (pos + 1) :: lineStartsFrom rest (pos + 1)
    else lineStartsFrom rest (pos + 1)

/-- Start offsets of the job_experience_pattern matches on a page, in
order (line 128 of doc_utils.py). -/
def jobExperStarts (page : Text) : List Nat :=
  (0 :: lineStartsFrom page 0).filter fun s => jobStartOK (page.drop s)

/-! Python dict with string keys: assignment replaces in place or appends;
.get returns an Option / a default. -/

abbrev Dict := List (Text × Text)

def dictGet? : Dict → Text → Option Text
  | [], _ => none
  | kv :: d, k => if kv.1 = k then some kv.2 else dictGet? d k

def dictGetD (d : Dict) (k dflt : Text) : Text := (dictGet? d k).getD dflt

def dictSet : Dict → Text → Text → Dict
  | [], k, v => [(k, v)]
  | kv :: d, k, v => if kv.1 = k then (k, v) :: d else kv :: dictSet d k v

inductive PyErr where
  | valueError
  | indexError
deriving DecidableEq, Repr

instance : DecidableEq (Except PyErr Dict) := fun a b =>
  match a, b with
  | .ok x, .ok y =>
    if h : x = y then isTrue (by rw [h])
    else isFalse (by intro hc; cases hc; exact h rfl)
  | .error x, .error y =>
    if h : x = y then isTrue (by rw [h])
    else isFalse (by intro hc; cases hc; exact h rfl)
  | .ok _, .error _ => isFalse (by intro hc; cases hc)
  | .error _, .ok _ => isFalse (by intro hc; cases hc)

/-- Default used by resume_dict.get(experience_key, "Professional Experience"). -/
def defaultPE : Text := toL "Professional Experience"

/-- Lines 107-135 of doc_utils.py: the loop
`for idx, span in enumerate(max_spans)`, carried over the remaining
suffix of max_spans with its starting index.  `i` is the 1-based page
number, `ends` the whole max_spans list, `maxSpan` the last recorded end
span, `minSpan` the minimum of min_spans, `m` = sections_size = number of
matches on this page.  List subscripts out of range are IndexError. -/
def pageLoop (i : Nat) (page : Text) (sections : List Text) (ek : Text)
    (ends : List Nat) (maxSpan minSpan m : Nat) :
    Nat → List Nat → Dict → Except PyErr Dict
  | _, [], d => .ok d
  | idx, e :: rest, d =>
    if i = 1 then
      if e ≠ maxSpan then
        match ends.get? (idx + 1) with
        | none => .error .indexError
        | some e2 =>
          match sections.get? idx with
          | none => .error .indexError
          | some key =>
            pageLoop i page sections ek ends maxSpan minSpan m (idx + 1) rest
              (dictSet d key (pyStrip (pySlice page e e2)))
      else
        match sections.get? idx with
        | none => .error .indexError
        | some key =>
          pageLoop i page sections ek ends maxSpan minSpan m (idx + 1) rest
            (dictSet d key (pyStrip (pySliceFrom page e)))
    else
      if e ≠ maxSpan then
        match ends.get? (idx + 1) with
        | none => .error .indexError
        | some e2 =>
          match sections.get? (idx + m) with
          | none => .error .indexError
          | some key =>
            pageLoop i page sections ek ends maxSpan minSpan m (idx + 1) rest
              (dictSet d key (pyStrip (pySlice page e e2)))
      else
        match jobExperStarts page with
        | [] => .error .indexError
        | a :: _ =>
          match sections.get? (idx + m) with
          | none => .error .indexError
          | some key =>
            pageLoop i page sections ek ends maxSpan minSpan m (idx + 1) rest
              (dictSet
                (dictSet d ek (dictGetD d ek defaultPE ++ '\n' :: pySlice page a minSpan))
                key (pyStrip (pySliceFrom page e)))

/-- One iteration of the page loop (lines 91-135): collect the spans, fail
with ValueError at `min(min_spans)` when no section matched, then run the
enumerate loop. -/
def processPage (i : Nat) (page : Text) (sections : List Text) (ek : Text)
    (d : Dict) : Except PyErr Dict :=
  let ms := sectionMatches sections page
  if ms.isEmpty then .error .valueError
  else
    let minSpan := listMin (ms.map Prod.fst)
    let ends := ms.map Prod.snd
    let maxSpan := (ends.getLast?).getD 0
    pageLoop i page sections ek ends maxSpan minSpan ms.length 0 ends d

def parseResumePages (sections : List Text) (ek : Text) :
    Nat → List Text → Dict → Except PyErr Dict
  | _, [], d => .ok d
  | i, p :: ps, d =>
    match processPage i p sections ek d with
    | .error err => .error err
    | .ok d2 => parseResumePages sections ek (i + 1) ps d2

/-- parse_resume (doc_utils.py lines 46-137). -/
def parse_resume (doc_pages : List Text) (resume_sections : List Text)
    (experience_key : Text) : Except PyErr Dict :=
  parseResumePages resume_sections experience_key 1 doc_pages []

/-- get_years_of_experience (doc_utils.py lines 140-198). -/
def get_years_of_experience (resume_dict : Dict) (experience_key : Text) :
    Option ℚ :=
  match dictGet? resume_dict experience_key with
  | none => none
  | some experiences =>
    if experiences.isEmpty then none
    else
      let year_months := scanYears experiences
      if year_months.isEmpty then none
      else
        match parseAll year_months with
        | none => none
        | some parse_dates =>
          let mx := listMaxDate parse_dates
          let mn := listMinDate parse_dates
          let total_days : ℤ :=
            (daysFromCivilN mx.1 mx.2 : ℤ) - (daysFromCivilN mn.1 mn.2 : ℤ)
          if total_days < 0 then none
          else some (pyRound2 (mkRat total_days 365))

/-- Is the call free of an uncaught exception? -/
def exceptOk (r : Except PyErr Dict) : Bool :=
  match r with
  | .ok _ => true
  | .error _ => false

/-- Value stored under `k` when the call returned a mapping. -/
def resultGet (r : Except PyErr Dict) (k : Text) : Option Text :=
  match r with
  | .ok d => dictGet? d k
  | .error _ => none

/-! ## Theorems for the claims -/

/-- Claim C4 (confirmed).  The spec's two-page scenario: page 1 matches the
three headers Aq, Bq (the experience section), Cq; page 2 matches the two
headers Dq, Eq and opens with continuation text for the experience
section ("Mo  Apr 2021 - May 2022\nv1\n", the text from the first
job-dated line up to the earliest header start on page 2).  The final
value stored under the experience key "Bq" is exactly the page-1
experience slice, then a newline, then the page-2 continuation text, and
the call returns a mapping (no exception). -/
theorem C4_confirmed :
    resultGet
      (parse_resume
        [toL "Aq\nzz\nBq\nJo  Jan 2020 - Mar 2021\nw1\nCq\nw2",
         toL "Mo  Apr 2021 - May 2022\nv1\nDq\nv2\nEq\nv3"]
        [toL "Aq", toL "Bq", toL "Cq", toL "Dq", toL "Eq"] (toL "Bq"))
      (toL "Bq")
      = some (toL "Jo  Jan 2020 - Mar 2021\nw1\nCq" ++
              '\n' :: toL "Mo  Apr 2021 - May 2022\nv1\n") ∧
    exceptOk
      (parse_resume
        [toL "Aq\nzz\nBq\nJo  Jan 2020 - Mar 2021\nw1\nCq\nw2",
         toL "Mo  Apr 2021 - May 2022\nv1\nDq\nv2\nEq\nv3"]
        [toL "Aq", toL "Bq", toL "Cq", toL "Dq", toL "Eq"] (toL "Bq"))
      = true := by
  constructor
  · decide
  · decide

/-- Claim C2 (code_bug).  A page on which zero configured header patterns
match does not surface a distinct "no sections detected" condition: the
call dies with the ValueError raised by `min(min_spans)` over the empty
span list (line 105), exactly the empty-sequence-reduction exception the
spec rules out. -/
theorem C2_bug :
    parse_resume [toL "no headers here"] [toL "Education"] (toL "Education")
      = .error .valueError := by
  decide

/-- Claim C5 (corrected): on "Mar 2022 – Jan 2019" the extractor does NOT
return the unknown sentinel; since the code subtracts min(parse_dates)
from max(parse_dates), the textual order of the dates is irrelevant and
the negative-span guard cannot fire. -/
theorem C5_counterexample :
    ¬ (get_years_of_experience [(toL "Ex", toL "Mar 2022 – Jan 2019")] (toL "Ex")
        = none) := by
  decide

/-- Claim C5 (corrected), amended: on the reversed input the extractor
returns 3.16 — the same value as on the forward input, because the span
is computed from the minimum to the maximum parsed date regardless of the
order of the tokens in the text. -/
theorem C5_amended :
    get_years_of_experience [(toL "Ex", toL "Mar 2022 – Jan 2019")] (toL "Ex")
      = some (mkRat 79 25) ∧
    get_years_of_experience [(toL "Ex", toL "Mar 2022 – Jan 2019")] (toL "Ex")
      = get_years_of_experience [(toL "Ex", toL "Jan 2019 – Mar 2022")] (toL "Ex") := by
  constructor
  · decide
  · decide

/-- Claim C6 (corrected): on "Jan 2019 – Mar 2022" the extractor does not
return 3.17.  The day count between 2019-01-01 and 2022-03-01 is 1155 and
1155/365 = 3.1643... rounds to 3.16. -/
theorem C6_counterexample :
    ¬ (get_years_of_experience [(toL "Ex", toL "Jan 2019 – Mar 2022")] (toL "Ex")
        = some (mkRat 317 100)) := by
  decide

/-- Claim C6 (corrected), amended: the result is 3.16, i.e. the 1155 days
between 2019-01-01 and 2022-03-01 divided by 365 and rounded half-to-even
to two decimal places. -/
theorem C6_amended :
    (daysFromCivilN 2022 3 : ℤ) - (daysFromCivilN 2019 1 : ℤ) = 1155 ∧
    pyRound2 (mkRat 1155 365) = mkRat 79 25 ∧
    get_years_of_experience [(toL "Ex", toL "Jan 2019 – Mar 2022")] (toL "Ex")
      = some (mkRat 79 25) := by
  refine ⟨by decide, by decide, by decide⟩

/-- Claim C8 (code_bug).  The years_pattern scan does accept full month
names — on "January 2019 – March 2022" it finds exactly the two tokens
"January 2019" and "March 2022" — but datetime.strptime with the "%b %Y"
format rejects a full month name (after matching the abbreviation "jan"
it requires whitespace and finds "uary"), so instead of a numeric
duration the whole computation collapses to the unknown sentinel. -/
theorem C8_bug :
    scanYears (toL "January 2019 – March 2022")
      = [toL "January 2019", toL "March 2022"] ∧
    pyStrptimeBY (toL "January 2019") = none ∧
    get_years_of_experience [(toL "Ex", toL "January 2019 – March 2022")] (toL "Ex")
      = none := by
  refine ⟨by decide, by decide, by decide⟩

/-- Claim C1 (corrected): counterexample.  Page 1 matches one header
("Aq"), so the claimed shift is 1 and the first (k = 0) match on page 2
should be assigned to the identifier at position 0 + 1, "Bq".  Instead
the code shifts by the number of matches on the current page (two: "Bq"
and "Cq"), assigns that slice to position 0 + 2 = "Cq", and no entry for
"Bq" is ever created, while the call still returns a mapping. -/
theorem C1_counterexample :
    resultGet
      (parse_resume [toL "Aq\nhi", toL "Xo  Jan 2020 - Feb 2021\nBq\nbb\nCq\ncc"]
        [toL "Aq", toL "Bq", toL "Cq", toL "Dq"] (toL "Aq")) (toL "Cq")
      = some (toL "bb\nCq") ∧
    resultGet
      (parse_resume [toL "Aq\nhi", toL "Xo  Jan 2020 - Feb 2021\nBq\nbb\nCq\ncc"]
        [toL "Aq", toL "Bq", toL "Cq", toL "Dq"] (toL "Aq")) (toL "Bq")
      = none ∧
    exceptOk
      (parse_resume [toL "Aq\nhi", toL "Xo  Jan 2020 - Feb 2021\nBq\nbb\nCq\ncc"]
        [toL "Aq", toL "Bq", toL "Cq", toL "Dq"] (toL "Aq"))
      = true := by
  refine ⟨by decide, by decide, by decide⟩

/-- Claim C3 (corrected): counterexample.  Invoking the pipeline with an
experience_key ("Zq") that is not among the configured section
identifiers does not fail at the boundary: the page is scanned and
parsed normally, and the duration query merely degrades to the unknown
sentinel because the key is absent from the resulting mapping. -/
theorem C3_counterexample :
    parse_resume [toL "Aq\nx\nBq\ny"] [toL "Aq", toL "Bq"] (toL "Zq")
      = .ok [(toL "Aq", toL "x\nBq"), (toL "Bq", toL "y")] ∧
    get_years_of_experience [(toL "Aq", toL "x\nBq"), (toL "Bq", toL "y")] (toL "Zq")
      = none := by
  refine ⟨by decide, by decide⟩

lemma parseAll_none_of_mem {toks : List Text} {tok : Text}
    (hm : tok ∈ toks) (hb : pyStrptimeBY tok = none) : parseAll toks = none := by
  induction toks with
  | nil => cases hm
  | cons t ts ih =>
    cases hm with
    | head => simp [parseAll, hb]
    | tail _ hm2 =>
      simp only [parseAll]
      cases h : pyStrptimeBY t with
      | none => rfl
      | some v => rw [ih hm2]

/-- Claim C7 (confirmed).  Whenever the date-token scan over the
experience text finds zero tokens, or any single found token fails the
strptime parse, get_years_of_experience returns the unknown sentinel
(None) — the embedding is total, so no exception escapes. -/
theorem C7_confirmed (d : Dict) (k t : Text)
    (hget : dictGet? d k = some t)
    (hbad : scanYears t = [] ∨ ∃ tok, tok ∈ scanYears t ∧ pyStrptimeBY tok = none) :
    get_years_of_experience d k = none := by
  unfold get_years_of_experience
  rw [hget]
  by_cases he : t.isEmpty
  · simp [he]
  · rcases hbad with h | ⟨tok, hm, hb⟩
    · simp [he, h]
    · have hp : parseAll (scanYears t) = none := parseAll_none_of_mem hm hb
      by_cases hy : (scanYears t).isEmpty
      · simp [he, hy]
      · simp [he, hy, hp]

/-- Claim C7, witness: a text with no date-like tokens. -/
theorem C7_witness :
    dictGet? [(toL "Ex", toL "worked hard")] (toL "Ex") = some (toL "worked hard") ∧
    get_years_of_experience [(toL "Ex", toL "worked hard")] (toL "Ex") = none :=
  ⟨by decide,
   C7_confirmed [(toL "Ex", toL "worked hard")] (toL "Ex") (toL "worked hard")
     (by decide) (Or.inl (by decide))⟩

lemma pageLoop_one_ek (page : Text) (sections : List Text) (ek ek2 : Text)
    (ends : List Nat) (maxSpan minSpan m : Nat) :
    ∀ (spans : List Nat) (idx : Nat) (d : Dict),
    pageLoop 1 page sections ek ends maxSpan minSpan m idx spans d
      = pageLoop 1 page sections ek2 ends maxSpan minSpan m idx spans d := by
  intro spans
  induction spans with
  | nil => intro idx d; rfl
  | cons e rest ih =>
    intro idx d
    simp only [pageLoop]
    split
    · split
      · split
        · rfl
        · split
          · rfl
          · exact ih (idx + 1) _
      · split
        · rfl
        · exact ih (idx + 1) _
    · simp_all

lemma processPage_one_ek (page : Text) (sections : List Text) (ek ek2 : Text)
    (d : Dict) :
    processPage 1 page sections ek d = processPage 1 page sections ek2 d := by
  by_cases h : (sectionMatches sections page).isEmpty
  · simp [processPage, h]
  · simp only [processPage, h, if_false, Bool.false_eq_true]
    exact pageLoop_one_ek ..

/-- Claim C3 (corrected), amended.  There is no MissingExperienceKey
validation at all: for a single-page document the parse result does not
depend on the experience_key in any way (in particular an invalid key
cannot fail fast), and an experience_key absent from the parsed mapping
merely makes get_years_of_experience return the unknown sentinel. -/
theorem C3_amended :
    (∀ (page : Text) (sections : List Text) (k1 k2 : Text),
       parse_resume [page] sections k1 = parse_resume [page] sections k2) ∧
    (∀ (d : Dict) (k : Text), dictGet? d k = none →
       get_years_of_experience d k = none) := by
  constructor
  · intro page sections k1 k2
    unfold parse_resume parseResumePages
    rw [processPage_one_ek page sections k1 k2]
    cases processPage 1 page sections k2 [] with
    | error e => rfl
    | ok d2 => rfl
  · intro d k h
    unfold get_years_of_experience
    rw [h]

/-- Claim C3, witness for the amended statement. -/
theorem C3_amended_witness :
    parse_resume [toL "Aq\nx"] [toL "Aq"] (toL "Zq")
      = parse_resume [toL "Aq\nx"] [toL "Aq"] (toL "Qq") ∧
    get_years_of_experience [(toL "Aq", toL "x")] (toL "Zq") = none :=
  ⟨C3_amended.1 _ _ _ _, C3_amended.2 _ _ (by decide)⟩

lemma getLastD_mem (l : List Nat) (h : l ≠ []) : (l.getLast?).getD 0 ∈ l := by
  induction l with
  | nil => exact absurd rfl h
  | cons x t ih =>
    cases t with
    | nil => simp
    | cons y s =>
      rw [List.getLast?_cons_cons]
      exact List.mem_cons_of_mem x (ih (by simp))

/-- The enumerate loop can only finish normally or die with IndexError
(every early exit is a list subscript failure). -/
lemma pageLoop_ok_or_idx (i : Nat) (page : Text) (sections : List Text)
    (ek : Text) (ends : List Nat) (maxSpan minSpan m : Nat) :
    ∀ (spans : List Nat) (idx : Nat) (d : Dict),
    (∃ d2, pageLoop i page sections ek ends maxSpan minSpan m idx spans d = .ok d2) ∨
    pageLoop i page sections ek ends maxSpan minSpan m idx spans d = .error .indexError := by
  intro spans
  induction spans with
  | nil => intro idx d; exact Or.inl ⟨d, rfl⟩
  | cons e rest ih =>
    intro idx d
    simp only [pageLoop]
    split
    · split
      · split
        · exact Or.inr rfl
        · split
          · exact Or.inr rfl
          · exact ih (idx + 1) _
      · split
        · exact Or.inr rfl
        · exact ih (idx + 1) _
    · split
      · split
        · exact Or.inr rfl
        · split
          · exact Or.inr rfl
          · exact ih (idx + 1) _
      · split
        · exact Or.inr rfl
        · split
          · exact Or.inr rfl
          · exact ih (idx + 1) _

/-- On a page after the first with no job_experience_pattern match, the
loop always reaches an element equal to max_span (the last element is)
and dies at `job_exper[0]` — or earlier, at an out-of-range
`sections[idx + sections_size]`; either way with IndexError. -/
lemma pageLoop_i2_noJob (i : Nat) (page : Text) (sections : List Text)
    (ek : Text) (ends : List Nat) (maxSpan minSpan m : Nat)
    (hi : i ≠ 1) (hj : jobExperStarts page = []) :
    ∀ (spans : List Nat) (idx : Nat) (d : Dict), maxSpan ∈ spans →
    pageLoop i page sections ek ends maxSpan minSpan m idx spans d
      = .error .indexError := by
  intro spans
  induction spans with
  | nil => intro idx d h; cases h
  | cons e rest ih =>
    intro idx d hmem
    simp only [pageLoop]
    rw [if_neg hi]
    by_cases he : e = maxSpan
    · rw [if_neg (not_not_intro he), hj]
    · rw [if_pos he]
      split
      · rfl
      · split
        · rfl
        · apply ih
          cases hmem with
          | head => exact absurd rfl he
          | tail _ h2 => exact h2

lemma processPage_i2_noJob (i : Nat) (p : Text) (sections : List Text)
    (ek : Text) (d : Dict) (hi : i ≠ 1)
    (hm : sectionMatches sections p ≠ []) (hj : jobExperStarts p = []) :
    processPage i p sections ek d = .error .indexError := by
  have hne : ¬(sectionMatches sections p).isEmpty := by
    simpa [List.isEmpty_iff] using hm
  simp only [processPage, hne, Bool.false_eq_true, if_false]
  exact pageLoop_i2_noJob i p sections ek _ _ _ _ hi hj _ 0 d
    (getLastD_mem _ (by simpa [List.map_eq_nil_iff] using hm))

lemma processPage_ok_or_idx (i : Nat) (p : Text) (sections : List Text)
    (ek : Text) (d : Dict) (hm : sectionMatches sections p ≠ []) :
    (∃ d2, processPage i p sections ek d = .ok d2) ∨
    processPage i p sections ek d = .error .indexError := by
  have hne : ¬(sectionMatches sections p).isEmpty := by
    simpa [List.isEmpty_iff] using hm
  simp only [processPage, hne, Bool.false_eq_true, if_false]
  exact pageLoop_ok_or_idx ..

lemma parseResumePages_noJob (sections : List Text) (ek : Text) :
    ∀ (ps : List Text) (i : Nat) (d : Dict), 2 ≤ i →
    (∀ p ∈ ps, sectionMatches sections p ≠ []) →
    (∃ p ∈ ps, jobExperStarts p = []) →
    parseResumePages sections ek i ps d = .error .indexError := by
  intro ps
  induction ps with
  | nil => intro i d _ _ hex; simp at hex
  | cons p rest ih =>
    intro i d hi hall hex
    simp only [parseResumePages]
    by_cases hj : jobExperStarts p = []
    · rw [processPage_i2_noJob i p sections ek d (by omega) (hall p (by simp)) hj]
    · rcases hex with ⟨q, hq, hjq⟩
      have hqrest : q ∈ rest := by
        cases hq with
        | head => exact absurd hjq hj
        | tail _ h2 => exact h2
      rcases processPage_ok_or_idx i p sections ek d (hall p (by simp)) with ⟨d2, hok⟩ | herr
      · rw [hok]
        exact ih (i + 1) d2 (by omega) (fun r hr => hall r (by simp [hr])) ⟨q, hqrest, hjq⟩
      · rw [herr]

/-- Claim C10 (confirmed).  For every multi-page document in which each
page has at least one configured header match (so that no page dies
earlier in `min(min_spans)`), if some page after the first has no line
matching the job-dated-entry pattern, parse_resume raises an uncaught
IndexError (the subscript `job_exper[0]` on the empty match list, or an
out-of-range section subscript on the way there) instead of returning a
section mapping. -/
theorem C10_confirmed (p1 : Text) (pages : List Text) (sections : List Text)
    (ek : Text)
    (hall : ∀ p ∈ p1 :: pages, sectionMatches sections p ≠ [])
    (hex : ∃ p ∈ pages, jobExperStarts p = []) :
    parse_resume (p1 :: pages) sections ek = .error .indexError := by
  unfold parse_resume
  simp only [parseResumePages]
  rcases processPage_ok_or_idx 1 p1 sections ek [] (hall p1 (by simp)) with ⟨d2, hok⟩ | herr
  · rw [hok]
    exact parseResumePages_noJob sections ek pages 2 d2 (by omega)
      (fun r hr => hall r (by simp [hr])) hex
  · rw [herr]

/-- Claim C10, witness: two pages, both matching the lone header "Aq",
page 2 containing no job-dated line. -/
theorem C10_witness :
    (∀ p ∈ [toL "Aq\nx", toL "Aq\ny"], sectionMatches [toL "Aq"] p ≠ []) ∧
    (∃ p ∈ [toL "Aq\ny"], jobExperStarts p = []) ∧
    parse_resume [toL "Aq\nx", toL "Aq\ny"] [toL "Aq"] (toL "Aq")
      = .error .indexError :=
  ⟨by decide, by decide,
   C10_confirmed (toL "Aq\nx") [toL "Aq\ny"] [toL "Aq"] (toL "Aq")
     (by decide) (by decide)⟩

lemma dictGet?_set_self (d : Dict) (k v : Text) :
    dictGet? (dictSet d k v) k = some v := by
  induction d with
  | nil => simp [dictSet, dictGet?]
  | cons kv d ih =>
    simp only [dictSet]
    by_cases h : kv.1 = k
    · simp [dictGet?, h]
    · simp [dictGet?, h, ih]

lemma dictGet?_set_ne (d : Dict) (k v k2 : Text) (h : k2 ≠ k) :
    dictGet? (dictSet d k v) k2 = dictGet? d k2 := by
  have h2 : k ≠ k2 := fun hh => h hh.symm
  induction d with
  | nil => simp [dictSet, dictGet?, h2]
  | cons kv d ih =>
    simp only [dictSet]
    by_cases hk : kv.1 = k
    · subst hk
      simp [dictGet?, h2]
    · simp [dictGet?, hk, ih]

lemma nodup_get?_inj (l : List Text) (h : l.Nodup) {a b : Nat} {x : Text}
    (ha : l.get? a = some x) (hb : l.get? b = some x) : a = b := by
  obtain ⟨hlt, _⟩ := List.get?_eq_some.mp ha
  rw [List.get?_eq_getElem?] at ha hb
  exact List.getElem?_inj hlt h (ha.trans hb.symm)

/-- Keys that no later iteration of the loop writes keep their value: on
page 1 the loop writes only `sections[idx']` for idx' ≥ idx, on later
pages only `experience_key` and `sections[idx' + sections_size]`. -/
lemma pageLoop_preserve (i : Nat) (page : Text) (sections : List Text)
    (ek : Text) (ends : List Nat) (maxSpan minSpan m : Nat) (key : Text) :
    ∀ (spans : List Nat) (idx : Nat) (d d' : Dict),
    pageLoop i page sections ek ends maxSpan minSpan m idx spans d = .ok d' →
    (i = 1 → ∀ j, idx ≤ j → sections.get? j ≠ some key) →
    (i ≠ 1 → key ≠ ek ∧ ∀ j, idx + m ≤ j → sections.get? j ≠ some key) →
    dictGet? d' key = dictGet? d key := by
  intro spans
  induction spans with
  | nil =>
    intro idx d d' h _ _
    cases h
    rfl
  | cons e rest ih =>
    intro idx d d' h h1 h2
    simp only [pageLoop] at h
    by_cases hi : i = 1
    · rw [if_pos hi] at h
      by_cases he : e = maxSpan
      · rw [if_neg (not_not_intro he)] at h
        cases hsec : sections.get? idx with
        | none => rw [hsec] at h; exact Except.noConfusion h
        | some key2 =>
          rw [hsec] at h
          have hk : key ≠ key2 := fun hkk => h1 hi idx (Nat.le_refl _) (hkk ▸ hsec)
          rw [ih (idx + 1) _ d' h (fun hh j hj => h1 hh j (by omega))
                (fun hh => absurd hi hh),
              dictGet?_set_ne _ _ _ _ hk]
      · rw [if_pos he] at h
        cases hnext : ends.get? (idx + 1) with
        | none => rw [hnext] at h; exact Except.noConfusion h
        | some e2 =>
          rw [hnext] at h
          cases hsec : sections.get? idx with
          | none => rw [hsec] at h; exact Except.noConfusion h
          | some key2 =>
            rw [hsec] at h
            have hk : key ≠ key2 := fun hkk => h1 hi idx (Nat.le_refl _) (hkk ▸ hsec)
            rw [ih (idx + 1) _ d' h (fun hh j hj => h1 hh j (by omega))
                  (fun hh => absurd hi hh),
                dictGet?_set_ne _ _ _ _ hk]
    · rw [if_neg hi] at h
      obtain ⟨hkek, hno⟩ := h2 hi
      by_cases he : e = maxSpan
      · rw [if_neg (not_not_intro he)] at h
        cases hjob : jobExperStarts page with
        | nil => rw [hjob] at h; exact Except.noConfusion h
        | cons a rest2 =>
          rw [hjob] at h
          cases hsec : sections.get? (idx + m) with
          | none => rw [hsec] at h; exact Except.noConfusion h
          | some key2 =>
            rw [hsec] at h
            have hk : key ≠ key2 := fun hkk => hno (idx + m) (Nat.le_refl _) (hkk ▸ hsec)
            rw [ih (idx + 1) _ d' h (fun hh => absurd hh hi)
                  (fun _ => ⟨hkek, fun j hj => hno j (by omega)⟩),
                dictGet?_set_ne _ _ _ _ hk, dictGet?_set_ne _ _ _ _ hkek]
      · rw [if_pos he] at h
        cases hnext : ends.get? (idx + 1) with
        | none => rw [hnext] at h; exact Except.noConfusion h
        | some e2 =>
          rw [hnext] at h
          cases hsec : sections.get? (idx + m) with
          | none => rw [hsec] at h; exact Except.noConfusion h
          | some key2 =>
            rw [hsec] at h
            have hk : key ≠ key2 := fun hkk => hno (idx + m) (Nat.le_refl _) (hkk ▸ hsec)
            rw [ih (idx + 1) _ d' h (fun hh => absurd hh hi)
                  (fun _ => ⟨hkek, fun j hj => hno j (by omega)⟩),
                dictGet?_set_ne _ _ _ _ hk]

/-- On a page after the first, the slice of the k-th surviving match (one
whose end span differs from max_span) is stored under
`sections[idx + k + sections_size]`, and with distinct section names and
an experience key outside them that binding is still present when the
loop finishes. -/
lemma pageLoop_lookup_cont (i : Nat) (page : Text) (sections : List Text)
    (ek : Text) (ends : List Nat) (maxSpan minSpan m : Nat)
    (hi : i ≠ 1) (hnd : sections.Nodup) (hek : ek ∉ sections) :
    ∀ (spans : List Nat) (idx : Nat) (d d' : Dict) (k e e2 : Nat),
    pageLoop i page sections ek ends maxSpan minSpan m idx spans d = .ok d' →
    spans.get? k = some e → e ≠ maxSpan →
    ends.get? (idx + k + 1) = some e2 →
    ∃ key, sections.get? (idx + k + m) = some key ∧
      dictGet? d' key = some (pyStrip (pySlice page e e2)) := by
  intro spans
  induction spans with
  | nil => intro idx d d' k e e2 _ hk; cases hk
  | cons e0 rest ih =>
    intro idx d d' k e e2 h hk hne he2
    simp only [pageLoop, if_neg hi] at h
    cases k with
    | zero =>
      rw [List.get?_cons_zero] at hk
      cases hk
      have he2b : ends.get? (idx + 1) = some e2 := by simpa using he2
      rw [if_pos hne, he2b] at h
      cases hsec : sections.get? (idx + m) with
      | none => rw [hsec] at h; exact Except.noConfusion h
      | some key =>
        rw [hsec] at h
        refine ⟨key, by simpa using hsec, ?_⟩
        have hkey_mem : key ∈ sections := List.get?_mem hsec
        rw [pageLoop_preserve i page sections ek ends maxSpan minSpan m key
              rest (idx + 1) _ d' h (fun hh => absurd hh hi)
              (fun _ => ⟨fun hkk => hek (hkk ▸ hkey_mem),
                fun j hj hsec2 =>
                  absurd (nodup_get?_inj sections hnd hsec2 hsec) (by omega)⟩)]
        exact dictGet?_set_self ..
    | succ k2 =>
      have hrest : ∀ (d1 : Dict),
          pageLoop i page sections ek ends maxSpan minSpan m (idx + 1) rest d1 = .ok d' →
          ∃ key, sections.get? (idx + k2 + 1 + m) = some key ∧
            dictGet? d' key = some (pyStrip (pySlice page e e2)) := by
        intro d1 h1
        have he2' : ends.get? (idx + 1 + k2 + 1) = some e2 := by
          have : idx + 1 + k2 + 1 = idx + (k2 + 1) + 1 := by omega
          rw [this]; exact he2
        have := ih (idx + 1) d1 d' k2 e e2 h1 (by simpa using hk) hne he2'
        rcases this with ⟨key, hkey, hv⟩
        exact ⟨key, by rw [show idx + k2 + 1 + m = idx + 1 + k2 + m by omega]; exact hkey, hv⟩
      by_cases he0 : e0 = maxSpan
      · rw [if_neg (not_not_intro he0)] at h
        cases hjob : jobExperStarts page with
        | nil => rw [hjob] at h; exact Except.noConfusion h
        | cons a rest2 =>
          rw [hjob] at h
          cases hsec : sections.get? (idx + m) with
          | none => rw [hsec] at h; exact Except.noConfusion h
          | some key2 =>
            rw [hsec] at h
            rcases hrest _ h with ⟨key, hkey, hv⟩
            exact ⟨key, by rw [show idx + (k2 + 1) + m = idx + k2 + 1 + m by omega]; exact hkey, hv⟩
      · rw [if_pos he0] at h
        cases hnext : ends.get? (idx + 1) with
        | none => rw [hnext] at h; exact Except.noConfusion h
        | some e2b =>
          rw [hnext] at h
          cases hsec : sections.get? (idx + m) with
          | none => rw [hsec] at h; exact Except.noConfusion h
          | some key2 =>
            rw [hsec] at h
            rcases hrest _ h with ⟨key, hkey, hv⟩
            exact ⟨key, by rw [show idx + (k2 + 1) + m = idx + k2 + 1 + m by omega]; exact hkey, hv⟩

/-- Claim C1 (corrected), amended.  The k-th matched section on a page
after the first is assigned to the configured identifier at position
k plus the number of sections matched on the CURRENT page
(sections_size = len(max_spans) is recomputed per page), not k plus the
page-1 count: whenever processPage on page i ≥ 2 succeeds, the k-th
match whose end span is not max_span has its slice stored under
`sections[k + (number of matches on this page)]` (section names assumed
distinct and the experience key not among them, so the binding is not
overwritten). -/
theorem C1_amended (i : Nat) (page : Text) (sections : List Text) (ek : Text)
    (d d' : Dict) (k e e2 : Nat)
    (hi : i ≠ 1) (hnd : sections.Nodup) (hek : ek ∉ sections)
    (hok : processPage i page sections ek d = .ok d')
    (he : ((sectionMatches sections page).map Prod.snd).get? k = some e)
    (hne : e ≠ (((sectionMatches sections page).map Prod.snd).getLast?).getD 0)
    (he2 : ((sectionMatches sections page).map Prod.snd).get? (k + 1) = some e2) :
    ∃ key, sections.get? (k + (sectionMatches sections page).length) = some key ∧
      dictGet? d' key = some (pyStrip (pySlice page e e2)) := by
  by_cases hemp : (sectionMatches sections page).isEmpty
  · rw [processPage, if_pos hemp] at hok
    exact Except.noConfusion hok
  · rw [processPage, if_neg hemp] at hok
    have := pageLoop_lookup_cont i page sections ek
      ((sectionMatches sections page).map Prod.snd)
      ((((sectionMatches sections page).map Prod.snd).getLast?).getD 0)
      (listMin ((sectionMatches sections page).map Prod.fst))
      (sectionMatches sections page).length hi hnd hek
      ((sectionMatches sections page).map Prod.snd) 0 d d' k e e2
      hok he hne (by simpa using he2)
    simpa using this

/-- Claim C1, witness for the amended statement: on page 2 the current
page matches two headers ("Bq", "Cq"), so the k = 0 match is stored under
position 0 + 2 = "Cq". -/
theorem C1_amended_witness :
    processPage 2 (toL "Xo  Jan 2020 - Feb 2021\nBq\nbb\nCq\ncc")
        [toL "Aq", toL "Bq", toL "Cq", toL "Dq"] (toL "Zq") []
      = .ok [(toL "Cq", toL "bb\nCq"),
             (toL "Zq", toL "Professional Experience\nXo  Jan 2020 - Feb 2021\n"),
             (toL "Dq", toL "cc")] ∧
    ∃ key, [toL "Aq", toL "Bq", toL "Cq", toL "Dq"].get?
        (0 + (sectionMatches [toL "Aq", toL "Bq", toL "Cq", toL "Dq"]
                (toL "Xo  Jan 2020 - Feb 2021\nBq\nbb\nCq\ncc")).length)
          = some key ∧
      dictGet? [(toL "Cq", toL "bb\nCq"),
                (toL "Zq", toL "Professional Experience\nXo  Jan 2020 - Feb 2021\n"),
                (toL "Dq", toL "cc")] key
        = some (pyStrip (pySlice (toL "Xo  Jan 2020 - Feb 2021\nBq\nbb\nCq\ncc") 26 32)) :=
  ⟨by decide,
   C1_amended 2 (toL "Xo  Jan 2020 - Feb 2021\nBq\nbb\nCq\ncc")
     [toL "Aq", toL "Bq", toL "Cq", toL "Dq"] (toL "Zq") []
     [(toL "Cq", toL "bb\nCq"),
      (toL "Zq", toL "Professional Experience\nXo  Jan 2020 - Feb 2021\n"),
      (toL "Dq", toL "cc")] 0 26 32
     (by decide) (by decide) (by decide) (by decide) (by decide) (by decide) (by decide)⟩

/-- Raw (pre-strip) slices taken by the first-page loop when the end
spans are strictly increasing: between consecutive end spans, and from
the last end span to the end of the page (lines 112-117). -/
def page1RawSlices (page : Text) : List Nat → List Text
  | [] => []
  | [e] => [pySliceFrom page e]
  | e :: e2 :: rest => pySlice page e e2 :: page1RawSlices page (e2 :: rest)

lemma slice_append_drop (t : Text) (a b : Nat) (h : a ≤ b) :
    pySlice t a b ++ pySliceFrom t b = pySliceFrom t a := by
  unfold pySlice pySliceFrom
  have h2 : (t.drop a).drop (b - a) = t.drop b := by
    rw [List.drop_drop]
    congr 1
    omega
  rw [← h2, List.take_append_drop]

lemma page1RawSlices_join (page : Text) :
    ∀ (rest : List Nat) (e0 : Nat), List.Chain' (· ≤ ·) (e0 :: rest) →
    (page1RawSlices page (e0 :: rest)).flatten = pySliceFrom page e0 := by
  intro rest
  induction rest with
  | nil => intro e0 _; simp [page1RawSlices]
  | cons e1 rest2 ih =>
    intro e0 hch
    rw [List.chain'_cons] at hch
    simp only [page1RawSlices, List.flatten_cons]
    rw [ih e1 hch.2, slice_append_drop page e0 e1 hch.1]

/-- On the first page, the k-th match whose end span differs from
max_span has the slice up to the next end span stored under
`sections[idx + k]`. -/
lemma pageLoop_lookup_first (page : Text) (sections : List Text)
    (ek : Text) (ends : List Nat) (maxSpan minSpan m : Nat)
    (hnd : sections.Nodup) :
    ∀ (spans : List Nat) (idx : Nat) (d d' : Dict) (k e e2 : Nat),
    pageLoop 1 page sections ek ends maxSpan minSpan m idx spans d = .ok d' →
    spans.get? k = some e → e ≠ maxSpan →
    ends.get? (idx + k + 1) = some e2 →
    ∃ key, sections.get? (idx + k) = some key ∧
      dictGet? d' key = some (pyStrip (pySlice page e e2)) := by
  intro spans
  induction spans with
  | nil => intro idx d d' k e e2 _ hk; cases hk
  | cons e0 rest ih =>
    intro idx d d' k e e2 h hk hne he2
    simp only [pageLoop, if_pos rfl] at h
    cases k with
    | zero =>
      rw [List.get?_cons_zero] at hk
      cases hk
      have he2b : ends.get? (idx + 1) = some e2 := by simpa using he2
      rw [if_pos hne, he2b] at h
      cases hsec : sections.get? idx with
      | none => rw [hsec] at h; exact Except.noConfusion h
      | some key =>
        rw [hsec] at h
        refine ⟨key, by simpa using hsec, ?_⟩
        rw [pageLoop_preserve 1 page sections ek ends maxSpan minSpan m key
              rest (idx + 1) _ d' h
              (fun _ j hj hsec2 =>
                absurd (nodup_get?_inj sections hnd hsec2 hsec) (by omega))
              (fun hh => absurd rfl hh)]
        exact dictGet?_set_self ..
    | succ k2 =>
      have hrest : ∀ (d1 : Dict),
          pageLoop 1 page sections ek ends maxSpan minSpan m (idx + 1) rest d1 = .ok d' →
          ∃ key, sections.get? (idx + (k2 + 1)) = some key ∧
            dictGet? d' key = some (pyStrip (pySlice page e e2)) := by
        intro d1 h1
        have he2b : ends.get? (idx + 1 + k2 + 1) = some e2 := by
          rw [show idx + 1 + k2 + 1 = idx + (k2 + 1) + 1 by omega]
          exact he2
        rcases ih (idx + 1) d1 d' k2 e e2 h1 (by simpa using hk) hne he2b with ⟨key, hkey, hv⟩
        exact ⟨key, by rw [show idx + (k2 + 1) = idx + 1 + k2 by omega]; exact hkey, hv⟩
      by_cases he0 : e0 = maxSpan
      · rw [if_neg (not_not_intro he0)] at h
        cases hsec : sections.get? idx with
        | none => rw [hsec] at h; exact Except.noConfusion h
        | some key2 => rw [hsec] at h; exact hrest _ h
      · rw [if_pos he0] at h
        cases hnext : ends.get? (idx + 1) with
        | none => rw [hnext] at h; exact Except.noConfusion h
        | some e2b =>
          rw [hnext] at h
          cases hsec : sections.get? idx with
          | none => rw [hsec] at h; exact Except.noConfusion h
          | some key2 => rw [hsec] at h; exact hrest _ h

/-- On the first page, the k-th match whose end span equals max_span has
the slice to the end of the page stored under `sections[idx + k]`. -/
lemma pageLoop_lookup_first_last (page : Text) (sections : List Text)
    (ek : Text) (ends : List Nat) (maxSpan minSpan m : Nat)
    (hnd : sections.Nodup) :
    ∀ (spans : List Nat) (idx : Nat) (d d' : Dict) (k e : Nat),
    pageLoop 1 page sections ek ends maxSpan minSpan m idx spans d = .ok d' →
    spans.get? k = some e → e = maxSpan →
    ∃ key, sections.get? (idx + k) = some key ∧
      dictGet? d' key = some (pyStrip (pySliceFrom page e)) := by
  intro spans
  induction spans with
  | nil => intro idx d d' k e _ hk; cases hk
  | cons e0 rest ih =>
    intro idx d d' k e h hk he
    simp only [pageLoop, if_pos rfl] at h
    cases k with
    | zero =>
      rw [List.get?_cons_zero] at hk
      cases hk
      rw [if_neg (not_not_intro he)] at h
      cases hsec : sections.get? idx with
      | none => rw [hsec] at h; exact Except.noConfusion h
      | some key =>
        rw [hsec] at h
        refine ⟨key, by simpa using hsec, ?_⟩
        rw [pageLoop_preserve 1 page sections ek ends maxSpan minSpan m key
              rest (idx + 1) _ d' h
              (fun _ j hj hsec2 =>
                absurd (nodup_get?_inj sections hnd hsec2 hsec) (by omega))
              (fun hh => absurd rfl hh)]
        exact dictGet?_set_self ..
    | succ k2 =>
      have hrest : ∀ (d1 : Dict),
          pageLoop 1 page sections ek ends maxSpan minSpan m (idx + 1) rest d1 = .ok d' →
          ∃ key, sections.get? (idx + (k2 + 1)) = some key ∧
            dictGet? d' key = some (pyStrip (pySliceFrom page e)) := by
        intro d1 h1
        rcases ih (idx + 1) d1 d' k2 e h1 (by simpa using hk) he with ⟨key, hkey, hv⟩
        exact ⟨key, by rw [show idx + (k2 + 1) = idx + 1 + k2 by omega]; exact hkey, hv⟩
      by_cases he0 : e0 = maxSpan
      · rw [if_neg (not_not_intro he0)] at h
        cases hsec : sections.get? idx with
        | none => rw [hsec] at h; exact Except.noConfusion h
        | some key2 => rw [hsec] at h; exact hrest _ h
      · rw [if_pos he0] at h
        cases hnext : ends.get? (idx + 1) with
        | none => rw [hnext] at h; exact Except.noConfusion h
        | some e2b =>
          rw [hnext] at h
          cases hsec : sections.get? idx with
          | none => rw [hsec] at h; exact Except.noConfusion h
          | some key2 => rw [hsec] at h; exact hrest _ h

/-- Claim C9 (corrected), amended.  On a single page the recovered bodies
do not exclude the header tokens: the k-th body is the page text from
the k-th matched header's END span to the next matched header's END
span (so each header after the first sits at the end of the preceding
body), the last body runs to the end of the page, and concatenating the
raw slices in offset order reproduces the page text from the end of the
first header onward — i.e. the original page minus only the text up to
and including the first header, modulo the per-slice whitespace
stripping. -/
theorem C9_amended (page : Text) (sections : List Text) (ek : Text) (d' : Dict)
    (hnd : sections.Nodup)
    (hok : parse_resume [page] sections ek = .ok d') :
    (∀ e0 rest, (sectionMatches sections page).map Prod.snd = e0 :: rest →
       List.Chain' (· ≤ ·) (e0 :: rest) →
       (page1RawSlices page (e0 :: rest)).flatten = pySliceFrom page e0) ∧
    (∀ k e e2, ((sectionMatches sections page).map Prod.snd).get? k = some e →
       ((sectionMatches sections page).map Prod.snd).get? (k + 1) = some e2 →
       e ≠ ((((sectionMatches sections page).map Prod.snd).getLast?).getD 0) →
       ∃ key, sections.get? k = some key ∧
         dictGet? d' key = some (pyStrip (pySlice page e e2))) ∧
    (∀ k e, ((sectionMatches sections page).map Prod.snd).get? k = some e →
       e = ((((sectionMatches sections page).map Prod.snd).getLast?).getD 0) →
       ∃ key, sections.get? k = some key ∧
         dictGet? d' key = some (pyStrip (pySliceFrom page e))) := by
  have hpp : processPage 1 page sections ek [] = .ok d' := by
    have hok2 := hok
    unfold parse_resume at hok2
    simp only [parseResumePages] at hok2
    cases hp : processPage 1 page sections ek [] with
    | error e => rw [hp] at hok2; exact Except.noConfusion hok2
    | ok d2 =>
      rw [hp] at hok2
      simp at hok2
      rw [hok2]
  refine ⟨fun e0 rest _ hch => page1RawSlices_join page rest e0 hch, ?_, ?_⟩
  · intro k e e2 he he2 hne
    have hemp : ¬(sectionMatches sections page).isEmpty := by
      intro hempty
      rw [List.isEmpty_iff.mp hempty] at he
      simp at he
    rw [processPage, if_neg hemp] at hpp
    have := pageLoop_lookup_first page sections ek
      ((sectionMatches sections page).map Prod.snd)
      ((((sectionMatches sections page).map Prod.snd).getLast?).getD 0)
      (listMin ((sectionMatches sections page).map Prod.fst))
      (sectionMatches sections page).length hnd
      ((sectionMatches sections page).map Prod.snd) 0 [] d' k e e2
      hpp he hne (by simpa using he2)
    simpa using this
  · intro k e he hlast
    have hemp : ¬(sectionMatches sections page).isEmpty := by
      intro hempty
      rw [List.isEmpty_iff.mp hempty] at he
      simp at he
    rw [processPage, if_neg hemp] at hpp
    have := pageLoop_lookup_first_last page sections ek
      ((sectionMatches sections page).map Prod.snd)
      ((((sectionMatches sections page).map Prod.snd).getLast?).getD 0)
      (listMin ((sectionMatches sections page).map Prod.fst))
      (sectionMatches sections page).length hnd
      ((sectionMatches sections page).map Prod.snd) 0 [] d' k e
      hpp he hlast
    simpa using this

/-- Claim C9, witness for the amended statement on the page
"Aq\nx\nBq\ny" with sections ["Aq", "Bq"] (end spans 2 and 8). -/
theorem C9_amended_witness :
    (page1RawSlices (toL "Aq\nx\nBq\ny") [2, 7]).flatten
      = pySliceFrom (toL "Aq\nx\nBq\ny") 2 ∧
    (∃ key, [toL "Aq", toL "Bq"].get? 0 = some key ∧
       dictGet? [(toL "Aq", toL "x\nBq"), (toL "Bq", toL "y")] key
         = some (pyStrip (pySlice (toL "Aq\nx\nBq\ny") 2 7))) ∧
    (∃ key, [toL "Aq", toL "Bq"].get? 1 = some key ∧
       dictGet? [(toL "Aq", toL "x\nBq"), (toL "Bq", toL "y")] key
         = some (pyStrip (pySliceFrom (toL "Aq\nx\nBq\ny") 7))) :=
  have h := C9_amended (toL "Aq\nx\nBq\ny") [toL "Aq", toL "Bq"] (toL "Aq")
      [(toL "Aq", toL "x\nBq"), (toL "Bq", toL "y")] (by decide) (by decide)
  ⟨h.1 2 [7] (by decide)
     (List.chain'_cons.mpr ⟨by omega, List.chain'_singleton 7⟩),
   h.2.1 0 2 7 (by decide) (by decide) (by decide),
   h.2.2 1 7 (by decide) (by decide)⟩

/-- Claim C9 (corrected): counterexample.  On a single page the body that
parse_resume recovers for a section runs to the END span of the next
matched header, so the next header token itself sits inside the body:
here the body stored for "Aq" is "x\nBq", which contains the header
token "Bq".  Concatenating the bodies therefore cannot reproduce the
page text minus the header tokens, and a header token does appear inside
a body. -/
theorem C9_counterexample :
    resultGet (parse_resume [toL "Aq\nx\nBq\ny"] [toL "Aq", toL "Bq"] (toL "Aq"))
        (toL "Aq") = some (toL "x\nBq") ∧
    pyFindIter (toL "Bq") (toL "x\nBq") ≠ [] := by
  refine ⟨by decide, by decide⟩

end JobAgent
